import Mathlib

/-!
# Verification of the SVM indexer service

A shallow embedding of the indexer service's core subsystems, translated
from the TypeScript source:

* `src/parsers/accounts.ts` — binary account decoder (discriminator
  identification and fixed-offset little-endian field parsing);
* `src/listeners/websocket.ts` — checkpointed transaction poller
  (`pollNewTransactions` and the `SyncState` checkpoint rows);
* `src/services/arenaLifecycle/startWorker.ts`, `endWorker.ts`,
  `index.ts` — the round-lifecycle orchestrator, its `ProcessingState`
  de-duplication rows and its reconciliation scans;
* the Redis leader-election module — compare-then-extend heartbeat.

Buffers are modelled as `List Nat` of byte values, JS `bigint` fields as
`Nat` (unsigned) or `Int` (signed two's complement), JS `Date` values as
integer milliseconds, and fallible network calls as explicit `Option` /
outcome parameters.
-/

namespace Indexer

set_option maxHeartbeats 1000000

/-! ## Byte-level primitives

`readLE n d off` models Node's `Buffer.readUIntLE`-family reads: `n`
bytes starting at byte offset `off`, least-significant byte first.
`bytesLE n v` is the canonical `n`-byte little-endian encoding of `v`.
`readBytes n d off` models `data.slice(off, off + n)`.
-/

/-- Read `n` little-endian bytes of `d` starting at offset `off`. -/
def readLE (n : Nat) (d : List Nat) (off : Nat) : Nat :=
  match n with
  | 0 => 0
  | m + 1 => d.getD off 0 + 256 * readLE m d (off + 1)

/-- Canonical `n`-byte little-endian encoding of `v`. -/
def bytesLE (n : Nat) (v : Nat) : List Nat :=
  match n with
  | 0 => []
  | m + 1 => v % 256 :: bytesLE m (v / 256)

/-- `data.slice(off, off + n)` as a list of bytes. -/
def readBytes (n : Nat) (d : List Nat) (off : Nat) : List Nat :=
  (d.drop off).take n

/-- Signed 64-bit read: two's complement interpretation of `readLE 8`
(models `Buffer.readBigInt64LE`). -/
def readI64 (d : List Nat) (off : Nat) : Int :=
  let u := readLE 8 d off
  if u < 2 ^ 63 then (u : Int) else (u : Int) - 2 ^ 64

/-- Canonical 8-byte little-endian two's-complement encoding of a signed
64-bit value. -/
def bytesI64 (v : Int) : List Nat :=
  bytesLE 8 (v % 2 ^ 64).toNat

/-- A single-byte boolean field, encoded as the JS code writes it. -/
def boolByte (b : Bool) : Nat := if b then 1 else 0

@[simp] theorem bytesLE_length (n v : Nat) : (bytesLE n v).length = n := by
  induction n generalizing v with
  | zero => rfl
  | succ m ih => simp [bytesLE, ih]

@[simp] theorem bytesI64_length (v : Int) : (bytesI64 v).length = 8 := by
  simp [bytesI64]

theorem getD_append_right (a b : List Nat) (k : Nat) (h : a.length ≤ k) :
    (a ++ b).getD k 0 = b.getD (k - a.length) 0 := by
  induction a generalizing k with
  | nil => simp
  | cons x t ih =>
      match k with
      | 0 => simp at h
      | j + 1 =>
          have ht : t.length ≤ j := by simpa using h
          simpa [List.getD] using ih j ht

theorem readLE_append_right (n : Nat) (a b : List Nat) (k : Nat)
    (h : a.length ≤ k) : readLE n (a ++ b) k = readLE n b (k - a.length) := by
  induction n generalizing k with
  | zero => rfl
  | succ m ih =>
      have h1 : a.length ≤ k + 1 := Nat.le_succ_of_le h
      have harith : k + 1 - a.length = k - a.length + 1 := by omega
      rw [readLE, readLE, getD_append_right a b k h, ih (k + 1) h1, harith]

theorem readLE_bytesLE (n v : Nat) (b : List Nat) (h : v < 256 ^ n) :
    readLE n (bytesLE n v ++ b) 0 = v := by
  induction n generalizing v b with
  | zero => simp [readLE]; omega
  | succ m ih =>
      have hdiv : v / 256 < 256 ^ m := by
        rw [Nat.div_lt_iff_lt_mul (by norm_num)]
        calc v < 256 ^ (m + 1) := h
        _ = 256 ^ m * 256 := by ring
      have htail : readLE m (bytesLE (m+1) v ++ b) 1 = v / 256 := by
        have : bytesLE (m+1) v ++ b = [v % 256] ++ (bytesLE m (v / 256) ++ b) := by
          simp [bytesLE]
        rw [this, readLE_append_right m _ _ 1 (by simp)]
        simpa using ih (v / 256) b hdiv
      simp only [readLE, htail]
      have : (bytesLE (m+1) v ++ b).getD 0 0 = v % 256 := by simp [bytesLE]
      rw [this]
      omega

theorem getD_lt_of_forall (d : List Nat) (off : Nat)
    (hd : ∀ x ∈ d, x < 256) : d.getD off 0 < 256 := by
  induction d generalizing off with
  | nil => simp
  | cons x t ih =>
      match off with
      | 0 => exact hd x (by simp)
      | j + 1 =>
          have : ∀ y ∈ t, y < 256 := fun y hy => hd y (by simp [hy])
          simpa [List.getD] using ih j this

theorem readLE_lt (n : Nat) (d : List Nat) (off : Nat)
    (hd : ∀ x ∈ d, x < 256) : readLE n d off < 256 ^ n := by
  induction n generalizing off with
  | zero => simp [readLE]
  | succ m ih =>
      have hb : d.getD off 0 < 256 := getD_lt_of_forall d off hd
      have hrec := ih (off + 1)
      have hB : 1 ≤ 256 ^ m := Nat.one_le_pow _ _ (by norm_num)
      have hp : 256 ^ (m + 1) = 256 * 256 ^ m := by ring
      rw [readLE, hp]
      omega

theorem readI64_bytesI64 (v : Int) (b : List Nat)
    (h1 : -(2 ^ 63) ≤ v) (h2 : v < 2 ^ 63) :
    readI64 (bytesI64 v ++ b) 0 = v := by
  have hm : (0:Int) ≤ v % 2 ^ 64 := Int.emod_nonneg v (by norm_num)
  have hm2 : v % 2 ^ 64 < 2 ^ 64 := Int.emod_lt_of_pos v (by norm_num)
  have hnat : (v % 2 ^ 64).toNat < 256 ^ 8 := by
    have : ((v % 2 ^ 64).toNat : Int) < 2 ^ 64 := by
      rwa [Int.toNat_of_nonneg hm]
    exact_mod_cast this
  have hread : readLE 8 (bytesI64 v ++ b) 0 = (v % 2 ^ 64).toNat := by
    unfold bytesI64
    exact readLE_bytesLE 8 _ b hnat
  simp only [readI64]
  rw [hread]
  split <;> omega

/-! Conditional rewriting lemmas used to evaluate offset-based reads on a
buffer built from concatenated field encodings. -/

theorem readI64_append_right (a b : List Nat) (k : Nat) (h : a.length ≤ k) :
    readI64 (a ++ b) k = readI64 b (k - a.length) := by
  simp only [readI64, readLE_append_right 8 a b k h]

theorem readBytes_append_right (n : Nat) (a b : List Nat) (k : Nat)
    (h : a.length ≤ k) : readBytes n (a ++ b) k = readBytes n b (k - a.length) := by
  simp only [readBytes, List.drop_append_eq_append_drop,
    List.drop_eq_nil_of_le h, List.nil_append]

theorem readBytes_exact (n : Nat) (a b : List Nat) (h : a.length = n) :
    readBytes n (a ++ b) 0 = a := by
  simp only [readBytes, List.drop_zero, List.take_append_eq_append_take, ← h,
    List.take_length, Nat.sub_self, List.take_zero, List.append_nil]

theorem readBytes_exact_nil (n : Nat) (a : List Nat) (h : a.length = n) :
    readBytes n a 0 = a := by
  simp only [readBytes, List.drop_zero, ← h, List.take_length]

theorem readLE_one_head (x : Nat) (l : List Nat) : readLE 1 (x :: l) 0 = x := by
  simp [readLE]

theorem readLE_bytesLE_nil (n v : Nat) (h : v < 256 ^ n) :
    readLE n (bytesLE n v) 0 = v := by
  simpa using readLE_bytesLE n v [] h

theorem readI64_bytesI64_nil (v : Int) (h1 : -(2 ^ 63) ≤ v) (h2 : v < 2 ^ 63) :
    readI64 (bytesI64 v) 0 = v := by
  simpa using readI64_bytesI64 v [] h1 h2

theorem boolByte_beq (b : Bool) : (boolByte b == 1) = b := by
  cases b <;> rfl

@[simp] theorem boolByte_lt (b : Bool) : boolByte b < 256 := by
  cases b <;> simp [boolByte]

/-! ## Account decoder (`src/parsers/accounts.ts`)

The source file carries two program variants.  `SvmTest` is the
`cryptarena_svm_test` variant (the one cited by the spec for `parseArena`
and `parsePlayerEntry`, including the 128-bit `rewardsClaimedBitmap`);
`Sol` is the `cryptarena-sol` variant, from which `WhitelistedToken`
comes.  `PublicKey` fields are kept as their raw 32-byte lists. -/

namespace SvmTest

def discGlobalState : List Nat := [163, 46, 74, 168, 216, 123, 133, 98]
def discArena : List Nat := [243, 215, 44, 44, 231, 211, 232, 168]
def discArenaAsset : List Nat := [30, 253, 113, 69, 230, 167, 240, 40]
def discPlayerEntry : List Nat := [158, 6, 39, 104, 234, 4, 153, 255]

/-- The fixed discriminator registry, in the source's insertion order. -/
def DISCRIMINATORS : List (String × List Nat) :=
  [("GlobalState", discGlobalState),
   ("Arena", discArena),
   ("ArenaAsset", discArenaAsset),
   ("PlayerEntry", discPlayerEntry)]

/-- `identifyAccountType`: reject buffers shorter than 8 bytes, otherwise
match the 8-byte prefix against the registry. -/
def identifyAccountType (data : List Nat) : Option String :=
  if data.length < 8 then none
  else (DISCRIMINATORS.find? (fun p => data.take 8 = p.2)).map (·.1)

structure GlobalStateAccount where
  admin : List Nat
  treasuryWallet : List Nat
  arenaDuration : Int
  currentArenaId : Nat
  maxPlayersPerArena : Nat
  maxSameAsset : Nat
  isPaused : Bool
  bump : Nat
  deriving Repr, DecidableEq

/-- `parseGlobalState`: sequential fixed-offset reads after the 8-byte
discriminator; a buffer shorter than the last read's end is a hard error. -/
def parseGlobalState (d : List Nat) : Option GlobalStateAccount :=
  if d.length < 92 then none else
  some { admin := readBytes 32 d 8
         treasuryWallet := readBytes 32 d 40
         arenaDuration := readI64 d 72
         currentArenaId := readLE 8 d 80
         maxPlayersPerArena := readLE 1 d 88
         maxSameAsset := readLE 1 d 89
         isPaused := readLE 1 d 90 == 1
         bump := readLE 1 d 91 }

/-- Canonical encoding matching `parseGlobalState`'s layout. -/
def encodeGlobalState (r : GlobalStateAccount) : List Nat :=
  discGlobalState ++ r.admin ++ r.treasuryWallet ++ bytesI64 r.arenaDuration ++
  bytesLE 8 r.currentArenaId ++ bytesLE 1 r.maxPlayersPerArena ++
  bytesLE 1 r.maxSameAsset ++ [boolByte r.isPaused] ++ bytesLE 1 r.bump

def ValidGlobalState (r : GlobalStateAccount) : Prop :=
  r.admin.length = 32 ∧ r.treasuryWallet.length = 32 ∧
  -(2 ^ 63) ≤ r.arenaDuration ∧ r.arenaDuration < 2 ^ 63 ∧
  r.currentArenaId < 2 ^ 64 ∧ r.maxPlayersPerArena < 256 ∧
  r.maxSameAsset < 256 ∧ r.bump < 256

theorem parseGlobalState_encode (r : GlobalStateAccount)
    (h : ValidGlobalState r) : parseGlobalState (encodeGlobalState r) = some r := by
  obtain ⟨admin, trez, dur, cid, mpp, msa, ip, bp⟩ := r
  obtain ⟨h1, h2, h3, h4, h5, h6, h7, h8⟩ := h
  simp only at h1 h2 h3 h4 h5 h6 h7 h8
  have h5' : cid < 256 ^ 8 := by norm_num at h5 ⊢; omega
  have h6' : mpp < 256 ^ 1 := by simpa using h6
  have h7' : msa < 256 ^ 1 := by simpa using h7
  have h8' : bp < 256 ^ 1 := by simpa using h8
  have hlen : (encodeGlobalState ⟨admin, trez, dur, cid, mpp, msa, ip, bp⟩).length = 92 := by
    simp [encodeGlobalState, discGlobalState, h1, h2]
  rw [parseGlobalState, if_neg (by omega)]
  simp only [encodeGlobalState, discGlobalState, List.append_assoc]
  simp only [readLE_append_right, readI64_append_right, readBytes_append_right,
    List.length_cons, List.length_nil, List.length_append, h1, h2,
    bytesLE_length, bytesI64_length, Nat.reduceAdd, Nat.reduceLeDiff,
    Nat.reduceSub, le_refl, Nat.sub_self, tsub_self]
  rw [readBytes_exact 32 admin _ h1, readBytes_exact 32 trez _ h2,
    readI64_bytesI64 dur _ h3 h4, readLE_bytesLE 8 cid _ h5',
    readLE_bytesLE 1 mpp _ h6', readLE_bytesLE 1 msa _ h7']
  rw [show ([boolByte ip] : List Nat) ++ bytesLE 1 bp = boolByte ip :: bytesLE 1 bp from rfl,
    readLE_one_head, boolByte_beq, readLE_bytesLE_nil 1 bp h8']

structure ArenaAccount where
  id : Nat
  status : Nat
  playerCount : Nat
  assetCount : Nat
  pricesSet : Nat
  endPricesSet : Nat
  winningAsset : Nat
  isSuspended : Bool
  bump : Nat
  startTimestamp : Int
  endTimestamp : Int
  totalPool : Nat
  deriving Repr, DecidableEq

/-- `parseArena` (cryptarena_svm_test variant, the one cited by the spec):
u64 id, six u8 counters/flags, a boolean, a bump, two i64 timestamps and a
u64 pool, at fixed offsets after the discriminator. -/
def parseArena (d : List Nat) : Option ArenaAccount :=
  if d.length < 48 then none else
  some { id := readLE 8 d 8
         status := readLE 1 d 16
         playerCount := readLE 1 d 17
         assetCount := readLE 1 d 18
         pricesSet := readLE 1 d 19
         endPricesSet := readLE 1 d 20
         winningAsset := readLE 1 d 21
         isSuspended := readLE 1 d 22 == 1
         bump := readLE 1 d 23
         startTimestamp := readI64 d 24
         endTimestamp := readI64 d 32
         totalPool := readLE 8 d 40 }

def encodeArena (r : ArenaAccount) : List Nat :=
  discArena ++ bytesLE 8 r.id ++ bytesLE 1 r.status ++ bytesLE 1 r.playerCount ++
  bytesLE 1 r.assetCount ++ bytesLE 1 r.pricesSet ++ bytesLE 1 r.endPricesSet ++
  bytesLE 1 r.winningAsset ++ [boolByte r.isSuspended] ++ bytesLE 1 r.bump ++
  bytesI64 r.startTimestamp ++ bytesI64 r.endTimestamp ++ bytesLE 8 r.totalPool

def ValidArena (r : ArenaAccount) : Prop :=
  r.id < 2 ^ 64 ∧ r.status < 256 ∧ r.playerCount < 256 ∧ r.assetCount < 256 ∧
  r.pricesSet < 256 ∧ r.endPricesSet < 256 ∧ r.winningAsset < 256 ∧
  r.bump < 256 ∧ -(2 ^ 63) ≤ r.startTimestamp ∧ r.startTimestamp < 2 ^ 63 ∧
  -(2 ^ 63) ≤ r.endTimestamp ∧ r.endTimestamp < 2 ^ 63 ∧ r.totalPool < 2 ^ 64

theorem parseArena_encode (r : ArenaAccount) (h : ValidArena r) :
    parseArena (encodeArena r) = some r := by
  obtain ⟨id, st, pc, ac, ps, eps, wa, sus, bp, sts, ets, tp⟩ := r
  obtain ⟨h1, h2, h3, h4, h5, h6, h7, h8, h9, h10, h11, h12, h13⟩ := h
  simp only at h1 h2 h3 h4 h5 h6 h7 h8 h9 h10 h11 h12 h13
  have h1' : id < 256 ^ 8 := by norm_num at h1 ⊢; omega
  have h13' : tp < 256 ^ 8 := by norm_num at h13 ⊢; omega
  have e2 : st < 256 ^ 1 := by simpa using h2
  have e3 : pc < 256 ^ 1 := by simpa using h3
  have e4 : ac < 256 ^ 1 := by simpa using h4
  have e5 : ps < 256 ^ 1 := by simpa using h5
  have e6 : eps < 256 ^ 1 := by simpa using h6
  have e7 : wa < 256 ^ 1 := by simpa using h7
  have e8 : bp < 256 ^ 1 := by simpa using h8
  have hlen : (encodeArena ⟨id, st, pc, ac, ps, eps, wa, sus, bp, sts, ets, tp⟩).length = 48 := by
    simp [encodeArena, discArena]
  rw [parseArena, if_neg (by omega)]
  simp only [encodeArena, discArena, List.append_assoc]
  simp only [readLE_append_right, readI64_append_right, readBytes_append_right,
    List.length_cons, List.length_nil, List.length_append,
    bytesLE_length, bytesI64_length, Nat.reduceAdd, Nat.reduceLeDiff,
    Nat.reduceSub, le_refl, Nat.sub_self, tsub_self]
  rw [readLE_bytesLE 8 id _ h1', readLE_bytesLE 1 st _ e2, readLE_bytesLE 1 pc _ e3,
    readLE_bytesLE 1 ac _ e4, readLE_bytesLE 1 ps _ e5, readLE_bytesLE 1 eps _ e6,
    readLE_bytesLE 1 wa _ e7]
  rw [show ([boolByte sus] : List Nat) ++ (bytesLE 1 bp ++ (bytesI64 sts ++ (bytesI64 ets ++ bytesLE 8 tp))) =
    boolByte sus :: (bytesLE 1 bp ++ (bytesI64 sts ++ (bytesI64 ets ++ bytesLE 8 tp))) from rfl,
    readLE_one_head, boolByte_beq, readLE_bytesLE 1 bp _ e8,
    readI64_bytesI64 sts _ h9 h10, readI64_bytesI64 ets _ h11 h12,
    readLE_bytesLE_nil 8 tp h13']

structure ArenaAssetAccount where
  arena : List Nat
  assetIndex : Nat
  playerCount : Nat
  startPrice : Nat
  endPrice : Nat
  priceMovement : Int
  bump : Nat
  deriving Repr, DecidableEq

/-- `parseArenaAsset`: 32-byte arena key, two u8s, two u64 prices, an i64
movement and a bump. -/
def parseArenaAsset (d : List Nat) : Option ArenaAssetAccount :=
  if d.length < 67 then none else
  some { arena := readBytes 32 d 8
         assetIndex := readLE 1 d 40
         playerCount := readLE 1 d 41
         startPrice := readLE 8 d 42
         endPrice := readLE 8 d 50
         priceMovement := readI64 d 58
         bump := readLE 1 d 66 }

def encodeArenaAsset (r : ArenaAssetAccount) : List Nat :=
  discArenaAsset ++ r.arena ++ bytesLE 1 r.assetIndex ++ bytesLE 1 r.playerCount ++
  bytesLE 8 r.startPrice ++ bytesLE 8 r.endPrice ++ bytesI64 r.priceMovement ++
  bytesLE 1 r.bump

def ValidArenaAsset (r : ArenaAssetAccount) : Prop :=
  r.arena.length = 32 ∧ r.assetIndex < 256 ∧ r.playerCount < 256 ∧
  r.startPrice < 2 ^ 64 ∧ r.endPrice < 2 ^ 64 ∧
  -(2 ^ 63) ≤ r.priceMovement ∧ r.priceMovement < 2 ^ 63 ∧ r.bump < 256

theorem parseArenaAsset_encode (r : ArenaAssetAccount) (h : ValidArenaAsset r) :
    parseArenaAsset (encodeArenaAsset r) = some r := by
  obtain ⟨ar, ai, pc, sp, ep, pm, bp⟩ := r
  obtain ⟨h1, h2, h3, h4, h5, h6, h7, h8⟩ := h
  simp only at h1 h2 h3 h4 h5 h6 h7 h8
  have e2 : ai < 256 ^ 1 := by simpa using h2
  have e3 : pc < 256 ^ 1 := by simpa using h3
  have e4 : sp < 256 ^ 8 := by norm_num at h4 ⊢; omega
  have e5 : ep < 256 ^ 8 := by norm_num at h5 ⊢; omega
  have e8 : bp < 256 ^ 1 := by simpa using h8
  have hlen : (encodeArenaAsset ⟨ar, ai, pc, sp, ep, pm, bp⟩).length = 67 := by
    simp [encodeArenaAsset, discArenaAsset, h1]
  rw [parseArenaAsset, if_neg (by omega)]
  simp only [encodeArenaAsset, discArenaAsset, List.append_assoc]
  simp only [readLE_append_right, readI64_append_right, readBytes_append_right,
    List.length_cons, List.length_nil, List.length_append, h1,
    bytesLE_length, bytesI64_length, Nat.reduceAdd, Nat.reduceLeDiff,
    Nat.reduceSub, le_refl, Nat.sub_self, tsub_self]
  rw [readBytes_exact 32 ar _ h1, readLE_bytesLE 1 ai _ e2, readLE_bytesLE 1 pc _ e3,
    readLE_bytesLE 8 sp _ e4, readLE_bytesLE 8 ep _ e5,
    readI64_bytesI64 pm _ h6 h7, readLE_bytesLE_nil 1 bp e8]

structure PlayerEntryAccount where
  arena : List Nat
  player : List Nat
  assetIndex : Nat
  playerIndex : Nat
  amount : Nat
  usdValue : Nat
  entryTimestamp : Int
  isWinner : Bool
  ownTokensClaimed : Bool
  rewardsClaimedBitmap : Nat
  bump : Nat
  deriving Repr, DecidableEq

/-- `parsePlayerEntry` (cryptarena_svm_test variant): two 32-byte keys,
two u8 indices, two u64 amounts, an i64 timestamp, two boolean flags and
the 128-bit `rewardsClaimedBitmap` read as two little-endian u64 halves
recombined as `low + (high <<< 64)`. -/
def parsePlayerEntry (d : List Nat) : Option PlayerEntryAccount :=
  if d.length < 117 then none else
  some { arena := readBytes 32 d 8
         player := readBytes 32 d 40
         assetIndex := readLE 1 d 72
         playerIndex := readLE 1 d 73
         amount := readLE 8 d 74
         usdValue := readLE 8 d 82
         entryTimestamp := readI64 d 90
         isWinner := readLE 1 d 98 == 1
         ownTokensClaimed := readLE 1 d 99 == 1
         rewardsClaimedBitmap := readLE 8 d 100 + (readLE 8 d 108 <<< 64)
         bump := readLE 1 d 116 }

def encodePlayerEntry (r : PlayerEntryAccount) : List Nat :=
  discPlayerEntry ++ r.arena ++ r.player ++ bytesLE 1 r.assetIndex ++
  bytesLE 1 r.playerIndex ++ bytesLE 8 r.amount ++ bytesLE 8 r.usdValue ++
  bytesI64 r.entryTimestamp ++ [boolByte r.isWinner] ++ [boolByte r.ownTokensClaimed] ++
  bytesLE 8 (r.rewardsClaimedBitmap % 2 ^ 64) ++ bytesLE 8 (r.rewardsClaimedBitmap / 2 ^ 64) ++
  bytesLE 1 r.bump

def ValidPlayerEntry (r : PlayerEntryAccount) : Prop :=
  r.arena.length = 32 ∧ r.player.length = 32 ∧ r.assetIndex < 256 ∧
  r.playerIndex < 256 ∧ r.amount < 2 ^ 64 ∧ r.usdValue < 2 ^ 64 ∧
  -(2 ^ 63) ≤ r.entryTimestamp ∧ r.entryTimestamp < 2 ^ 63 ∧
  r.rewardsClaimedBitmap < 2 ^ 128 ∧ r.bump < 256

theorem parsePlayerEntry_encode (r : PlayerEntryAccount) (h : ValidPlayerEntry r) :
    parsePlayerEntry (encodePlayerEntry r) = some r := by
  obtain ⟨ar, pl, ai, pi, am, uv, ets, iw, otc, rcb, bp⟩ := r
  obtain ⟨h1, h2, h3, h4, h5, h6, h7, h8, h9, h10⟩ := h
  simp only at h1 h2 h3 h4 h5 h6 h7 h8 h9 h10
  have e3 : ai < 256 ^ 1 := by simpa using h3
  have e4 : pi < 256 ^ 1 := by simpa using h4
  have e5 : am < 256 ^ 8 := by norm_num at h5 ⊢; omega
  have e6 : uv < 256 ^ 8 := by norm_num at h6 ⊢; omega
  have elo : rcb % 2 ^ 64 < 256 ^ 8 := by
    have : rcb % 2 ^ 64 < 2 ^ 64 := Nat.mod_lt _ (by norm_num)
    norm_num at this ⊢; omega
  have ehi : rcb / 2 ^ 64 < 256 ^ 8 := by
    have : rcb / 2 ^ 64 < 2 ^ 64 := by
      rw [Nat.div_lt_iff_lt_mul (by norm_num)]
      norm_num at h9 ⊢; omega
    norm_num at this ⊢; omega
  have e10 : bp < 256 ^ 1 := by simpa using h10
  have hlen : (encodePlayerEntry ⟨ar, pl, ai, pi, am, uv, ets, iw, otc, rcb, bp⟩).length = 117 := by
    simp [encodePlayerEntry, discPlayerEntry, h1, h2]
  rw [parsePlayerEntry, if_neg (by omega)]
  simp only [encodePlayerEntry, discPlayerEntry, List.append_assoc]
  simp only [readLE_append_right, readI64_append_right, readBytes_append_right,
    List.length_cons, List.length_nil, List.length_append, h1, h2,
    bytesLE_length, bytesI64_length, Nat.reduceAdd, Nat.reduceLeDiff,
    Nat.reduceSub, le_refl, Nat.sub_self, tsub_self]
  rw [readBytes_exact 32 ar _ h1, readBytes_exact 32 pl _ h2,
    readLE_bytesLE 1 ai _ e3, readLE_bytesLE 1 pi _ e4,
    readLE_bytesLE 8 am _ e5, readLE_bytesLE 8 uv _ e6,
    readI64_bytesI64 ets _ h7 h8]
  rw [show ([boolByte iw] : List Nat) ++ ([boolByte otc] ++ (bytesLE 8 (rcb % 2 ^ 64) ++ (bytesLE 8 (rcb / 2 ^ 64) ++ bytesLE 1 bp))) =
    boolByte iw :: ([boolByte otc] ++ (bytesLE 8 (rcb % 2 ^ 64) ++ (bytesLE 8 (rcb / 2 ^ 64) ++ bytesLE 1 bp))) from rfl,
    readLE_one_head, boolByte_beq]
  rw [show ([boolByte otc] : List Nat) ++ (bytesLE 8 (rcb % 2 ^ 64) ++ (bytesLE 8 (rcb / 2 ^ 64) ++ bytesLE 1 bp)) =
    boolByte otc :: (bytesLE 8 (rcb % 2 ^ 64) ++ (bytesLE 8 (rcb / 2 ^ 64) ++ bytesLE 1 bp)) from rfl,
    readLE_one_head, boolByte_beq,
    readLE_bytesLE 8 (rcb % 2 ^ 64) _ elo, readLE_bytesLE 8 (rcb / 2 ^ 64) _ ehi,
    readLE_bytesLE_nil 1 bp e10]
  have : rcb % 2 ^ 64 + ((rcb / 2 ^ 64) <<< 64) = rcb := by
    rw [Nat.shiftLeft_eq]
    have := Nat.mod_add_div rcb (2 ^ 64)
    norm_num at this ⊢
    omega
  rw [this]

end SvmTest

namespace Sol

def discWhitelistedToken : List Nat := [217, 124, 32, 114, 40, 167, 143, 233]

/-- A byte of the symbol field that `String.trim` would strip (ASCII
whitespace, as produced by the JS `trim()` on the decoded string). -/
def isSpaceByte (b : Nat) : Bool := b == 32 || (9 ≤ b && b ≤ 13)

/-- Strip leading and trailing whitespace bytes. -/
def trimBytes (l : List Nat) : List Nat :=
  ((l.dropWhile isSpaceByte).reverse.dropWhile isSpaceByte).reverse

/-- The symbol post-processing of `parseWhitelistedToken`: drop every NUL
byte (the `replace` of NULs), then trim surrounding whitespace. -/
def decodeSymbol (l : List Nat) : List Nat :=
  trimBytes (l.filter (fun b => b ≠ 0))

structure WhitelistedTokenAccount where
  assetIndex : Nat
  chainType : Nat
  isActive : Bool
  bump : Nat
  tokenAddress : List Nat
  symbol : List Nat
  deriving Repr, DecidableEq

/-- `parseWhitelistedToken` (cryptarena-sol variant): four single-byte
fields, a 32-byte token address and a 10-byte NUL-padded symbol. -/
def parseWhitelistedToken (d : List Nat) : Option WhitelistedTokenAccount :=
  if d.length < 54 then none else
  some { assetIndex := readLE 1 d 8
         chainType := readLE 1 d 9
         isActive := readLE 1 d 10 == 1
         bump := readLE 1 d 11
         tokenAddress := readBytes 32 d 12
         symbol := decodeSymbol (readBytes 10 d 44) }

def encodeWhitelistedToken (r : WhitelistedTokenAccount) : List Nat :=
  discWhitelistedToken ++ bytesLE 1 r.assetIndex ++ bytesLE 1 r.chainType ++
  [boolByte r.isActive] ++ bytesLE 1 r.bump ++ r.tokenAddress ++
  (r.symbol ++ List.replicate (10 - r.symbol.length) 0)

def ValidWhitelistedToken (r : WhitelistedTokenAccount) : Prop :=
  r.assetIndex < 256 ∧ r.chainType < 256 ∧ r.bump < 256 ∧
  r.tokenAddress.length = 32 ∧ r.symbol.length ≤ 10 ∧
  (∀ b ∈ r.symbol, b ≠ 0) ∧ trimBytes r.symbol = r.symbol

theorem decodeSymbol_padded (sym : List Nat) (hn : ∀ b ∈ sym, b ≠ 0)
    (ht : trimBytes sym = sym) (k : Nat) :
    decodeSymbol (sym ++ List.replicate k 0) = sym := by
  unfold decodeSymbol
  have hfilter : (sym ++ List.replicate k 0).filter (fun b => b ≠ 0) = sym := by
    rw [List.filter_append]
    have h1 : sym.filter (fun b => b ≠ 0) = sym :=
      List.filter_eq_self.mpr (fun a ha => by simpa using hn a ha)
    have h2 : (List.replicate k 0).filter (fun b : Nat => b ≠ 0) = [] := by
      apply List.filter_eq_nil_iff.mpr
      intro a ha
      simp [List.eq_of_mem_replicate ha]
    rw [h1, h2, List.append_nil]
  rw [hfilter, ht]

theorem parseWhitelistedToken_encode (r : WhitelistedTokenAccount)
    (h : ValidWhitelistedToken r) :
    parseWhitelistedToken (encodeWhitelistedToken r) = some r := by
  obtain ⟨ai, ct, ia, bp, ta, sym⟩ := r
  obtain ⟨h1, h2, h3, h4, h5, h6, h7⟩ := h
  simp only at h1 h2 h3 h4 h5 h6 h7
  have e1 : ai < 256 ^ 1 := by simpa using h1
  have e2 : ct < 256 ^ 1 := by simpa using h2
  have e3 : bp < 256 ^ 1 := by simpa using h3
  have hpad : (sym ++ List.replicate (10 - sym.length) 0).length = 10 := by
    simp; omega
  have hlen : (encodeWhitelistedToken ⟨ai, ct, ia, bp, ta, sym⟩).length = 54 := by
    simp [encodeWhitelistedToken, discWhitelistedToken, h4]; omega
  rw [parseWhitelistedToken, if_neg (by omega)]
  simp only [encodeWhitelistedToken, discWhitelistedToken, List.append_assoc]
  simp only [readLE_append_right, readI64_append_right, readBytes_append_right,
    List.length_cons, List.length_nil, List.length_append, h4,
    bytesLE_length, bytesI64_length, Nat.reduceAdd, Nat.reduceLeDiff,
    Nat.reduceSub, le_refl, Nat.sub_self, tsub_self]
  rw [readLE_bytesLE 1 ai _ e1, readLE_bytesLE 1 ct _ e2]
  rw [show ([boolByte ia] : List Nat) ++ (bytesLE 1 bp ++ (ta ++ (sym ++ List.replicate (10 - sym.length) 0))) =
    boolByte ia :: (bytesLE 1 bp ++ (ta ++ (sym ++ List.replicate (10 - sym.length) 0))) from rfl,
    readLE_one_head, boolByte_beq, readLE_bytesLE 1 bp _ e3]
  rw [readBytes_exact 32 ta _ h4, readBytes_exact_nil 10 _ hpad,
    decodeSymbol_padded sym h6 h7]

end Sol

/-! ## Claims C8 and C9: the account decoder -/

theorem bitmap_add_eq_or (lo hi : Nat) (h : lo < 2 ^ 64) :
    lo + (hi <<< 64) = (hi <<< 64) ||| lo := by
  rw [Nat.shiftLeft_eq, Nat.add_comm, Nat.mul_comm hi (2 ^ 64),
    Nat.mul_add_lt_is_or h hi]

/-! ## Lifecycle orchestrator
(`src/services/arenaLifecycle/{startWorker,endWorker,index}.ts`)

`ProcRow` models the relevant columns of the `arena_processing_state`
row (per-arena singleton).  Times are integer epoch values: `updatedAt`
and thresholds in milliseconds, chain timestamps in seconds, matching the
source's `Date.now()` / `Math.floor(Date.now() / 1000)` usage.  Database
reads and chain calls are passed in as explicit values. -/

inductive SubStatus
  | pending
  | processing
  | scheduled
  | completed
  | failed
  deriving Repr, DecidableEq

structure ProcRow where
  startStatus : SubStatus
  endStatus : SubStatus
  scheduledEndTime : Option Int
  updatedAt : Int
  deriving Repr, DecidableEq

/-- Row defaults from the `arena_processing_state` migration: both
sub-statuses default to `pending`. -/
def freshRow (now : Int) : ProcRow :=
  { startStatus := .pending, endStatus := .pending,
    scheduledEndTime := none, updatedAt := now }

structure StartAddJobOutcome where
  enqueued : Bool
  row : Option ProcRow
  deriving Repr, DecidableEq

/-- `StartWorker.addJob`: skip (return null) when a row exists whose
`startStatus` is anything other than `pending`; otherwise upsert the row
to `processing` and enqueue the start job. -/
def startAddJob (row? : Option ProcRow) (nowMs : Int) : StartAddJobOutcome :=
  match row? with
  | some r =>
    if r.startStatus ≠ .pending then ⟨false, some r⟩
    else ⟨true, some { r with startStatus := .processing, updatedAt := nowMs }⟩
  | none =>
    ⟨true, some { freshRow nowMs with startStatus := .processing }⟩

structure ArenaInfo where
  endTimestamp : Int
  status : Nat
  deriving Repr, DecidableEq

/-- The error kinds `EndWorker` distinguishes (by message substrings in
the source): the specific on-chain duration rejection, the inline
chain-info fetch failure, and everything else. -/
inductive EndErr
  | durationNotComplete (remaining : Int)
  | chainInfoUnavailable
  | other
  deriving Repr, DecidableEq

/-- `addJob`'s `isDurationNotComplete` message test: the error thrown by
`processEndArena`'s duration gate (and the 0x1775/6005 program rejection)
matches, nothing else does. -/
def isDurationNotComplete : EndErr → Bool
  | .durationNotComplete _ => true
  | _ => false

/-- The inline part of `EndWorker.processEndArena` up to and including
the on-chain duration gate: re-read the arena from the chain, abort when
that fails, abort with a duration-not-complete error when the chain's
end timestamp is more than 1 second away; only then run the price
submissions and finalization (`rest`, an abstract outcome).  The second
component records whether the submission phase was reached. -/
def processEndArena (chainInfo : Option ArenaInfo) (nowSec : Int)
    (rest : Except EndErr Unit) : Except EndErr Unit × Bool :=
  match chainInfo with
  | none => (Except.error .chainInfoUnavailable, false)
  | some info =>
    if info.endTimestamp - nowSec > 1 then
      (Except.error (.durationNotComplete (info.endTimestamp - nowSec)), false)
    else (rest, true)

structure QueuedJob where
  delayMs : Option Int
  removeOnComplete : Bool
  deriving Repr, DecidableEq

structure EndAddJobOutcome where
  skipped : Bool
  upsertedRow : Option ProcRow
  finalRow : Option ProcRow
  job : Option QueuedJob
  executedInline : Bool
  reachedSubmission : Bool
  deriving Repr, DecidableEq

/-- `EndWorker.addJob`: skip only when the existing row's `endStatus` is
`completed`; otherwise upsert the row (creating it with
`startStatus = completed`, `endStatus = processing`), run the end
transition inline, and depending on the inline outcome either enqueue a
tracking job (success), re-read the chain and enqueue a delayed retry
with `endStatus = scheduled` (duration not complete), or enqueue an
immediate retry with `endStatus = failed`. -/
def endAddJob (row? : Option ProcRow)
    (chainInline : Option ArenaInfo) (nowInlineSec : Int)
    (rest : Except EndErr Unit)
    (chainRetry : Option ArenaInfo) (nowRetrySec : Int)
    (nowMs : Int) : EndAddJobOutcome :=
  let skipOutcome : EndAddJobOutcome :=
    ⟨true, none, row?, none, false, false⟩
  let run : ProcRow → EndAddJobOutcome := fun r0 =>
    match processEndArena chainInline nowInlineSec rest with
    | (Except.ok _, reached) =>
      ⟨false, some r0,
        some { r0 with endStatus := .completed, updatedAt := nowMs },
        some ⟨none, true⟩, true, reached⟩
    | (Except.error e, reached) =>
      if isDurationNotComplete e then
        match chainRetry with
        | some info =>
          let remaining := max 0 (info.endTimestamp - nowRetrySec)
          ⟨false, some r0,
            some { r0 with endStatus := .scheduled, updatedAt := nowMs },
            some ⟨some ((remaining + 5) * 1000), false⟩, true, reached⟩
        | none =>
          ⟨false, some r0,
            some { r0 with endStatus := .failed, updatedAt := nowMs },
            some ⟨none, false⟩, true, reached⟩
      else
        ⟨false, some r0,
          some { r0 with endStatus := .failed, updatedAt := nowMs },
          some ⟨none, false⟩, true, reached⟩
  match row? with
  | some r =>
    if r.endStatus = .completed then skipOutcome
    else run { r with endStatus := .processing, updatedAt := nowMs }
  | none =>
    run { freshRow nowMs with startStatus := .completed, endStatus := .processing }

/-! ### Reconciliation scans -/

structure ReconcileResult where
  row : Option ProcRow
  addJobCalled : Bool
  enqueued : Bool
  executedInline : Bool
  deriving Repr, DecidableEq

/-- One arena's step of
`ArenaLifecycleManager.checkWaitingArenasCountdown` (the caller's query
restricts it to Waiting arenas with at least one player): demote a stuck
`processing` start row to `failed`, skip rows still processing or already
completed, skip when the first player entry is newer than the countdown
threshold, otherwise call `StartWorker.addJob`. -/
def startReconcileArena (entries : List Int) (row? : Option ProcRow)
    (nowMs countdownMs : Int) : ReconcileResult :=
  let stuckThreshold := nowMs - 2 * 60 * 1000
  let countdownThreshold := nowMs - countdownMs
  let afterStuck : Option ProcRow → ReconcileResult := fun row1 =>
    match row1 with
    | some r =>
      if r.startStatus = .completed then ⟨row1, false, false, false⟩
      else
        match entries with
        | [] => ⟨row1, false, false, false⟩
        | e0 :: restEntries =>
          let firstEntry := restEntries.foldl min e0
          if firstEntry > countdownThreshold then ⟨row1, false, false, false⟩
          else
            let res := startAddJob row1 nowMs
            ⟨res.row, true, res.enqueued, false⟩
    | none =>
      match entries with
      | [] => ⟨none, false, false, false⟩
      | e0 :: restEntries =>
        let firstEntry := restEntries.foldl min e0
        if firstEntry > countdownThreshold then ⟨none, false, false, false⟩
        else
          let res := startAddJob none nowMs
          ⟨res.row, true, res.enqueued, false⟩
  match row? with
  | some r =>
    if r.startStatus = .processing then
      if r.updatedAt < stuckThreshold then
        afterStuck (some { r with startStatus := .failed, updatedAt := nowMs })
      else ⟨some r, false, false, false⟩
    else afterStuck (some r)
  | none => afterStuck none

/-- One arena's step of the second loop of
`EndWorker.checkAndScheduleEndJobs` (the caller's query restricts it to
Active arenas whose end timestamp has passed the 2-second buffer):
demote a stuck `processing` end row to `failed`, skip rows still
processing or already completed, otherwise call `EndWorker.addJob`. -/
def endReconcileArena (row? : Option ProcRow)
    (chainInline : Option ArenaInfo) (nowInlineSec : Int)
    (rest : Except EndErr Unit)
    (chainRetry : Option ArenaInfo) (nowRetrySec : Int)
    (nowMs : Int) : ReconcileResult :=
  let stuckThreshold := nowMs - 2 * 60 * 1000
  let afterStuck : Option ProcRow → ReconcileResult := fun row1 =>
    match row1 with
    | some r =>
      if r.endStatus = .completed then ⟨row1, false, false, false⟩
      else
        let res := endAddJob row1 chainInline nowInlineSec rest chainRetry
          nowRetrySec nowMs
        ⟨res.finalRow, true, res.job.isSome, res.executedInline⟩
    | none =>
      let res := endAddJob none chainInline nowInlineSec rest chainRetry
        nowRetrySec nowMs
      ⟨res.finalRow, true, res.job.isSome, res.executedInline⟩
  match row? with
  | some r =>
    if r.endStatus = .processing then
      if r.updatedAt < stuckThreshold then
        afterStuck (some { r with endStatus := .failed, updatedAt := nowMs })
      else ⟨some r, false, false, false⟩
    else afterStuck (some r)
  | none => afterStuck none

/-! ## Leader election heartbeat (Redis compare-then-extend) -/

structure LockStore where
  value : Option String
  ttl : Int
  deriving Repr, DecidableEq

structure LeaderLocal where
  isLeader : Bool
  heartbeatRunning : Bool
  deriving Repr, DecidableEq

/-- One firing of `startHeartbeat`'s interval callback: the Lua script
extends the TTL only when the key still holds this instance's identity;
a mismatch (including an expired/absent key) demotes to follower and
stops the heartbeat — the code path only flips `isLeader` and clears the
interval, it never exits the process, so the step always returns a
continuing local state. -/
def heartbeatStep (instanceId : String) (isShuttingDown : Bool)
    (store : LockStore) (localState : LeaderLocal) :
    LockStore × LeaderLocal :=
  if isShuttingDown then (store, localState)
  else
    match store.value with
    | some v =>
      if v = instanceId then ({ store with ttl := 30 }, localState)
      else
        (store,
          { localState with isLeader := false, heartbeatRunning := false })
    | none =>
      (store, { localState with isLeader := false, heartbeatRunning := false })

/-- C8: for every valid record of each account variant (GlobalState,
Arena, ArenaAsset, PlayerEntry, WhitelistedToken), decoding the canonical
fixed-width little-endian encoding returns the record itself; and the
128-bit `rewardsClaimedBitmap` of any decoded PlayerEntry equals
`high <<< 64 ||| low` of the two little-endian 64-bit halves read at
offsets 100 and 108. -/
theorem claim_C8
    (g : SvmTest.GlobalStateAccount) (a : SvmTest.ArenaAccount)
    (aa : SvmTest.ArenaAssetAccount) (p : SvmTest.PlayerEntryAccount)
    (w : Sol.WhitelistedTokenAccount)
    (hg : SvmTest.ValidGlobalState g) (ha : SvmTest.ValidArena a)
    (haa : SvmTest.ValidArenaAsset aa) (hp : SvmTest.ValidPlayerEntry p)
    (hw : Sol.ValidWhitelistedToken w) :
    SvmTest.parseGlobalState (SvmTest.encodeGlobalState g) = some g ∧
    SvmTest.parseArena (SvmTest.encodeArena a) = some a ∧
    SvmTest.parseArenaAsset (SvmTest.encodeArenaAsset aa) = some aa ∧
    SvmTest.parsePlayerEntry (SvmTest.encodePlayerEntry p) = some p ∧
    Sol.parseWhitelistedToken (Sol.encodeWhitelistedToken w) = some w ∧
    (∀ d r, (∀ x ∈ d, x < 256) → SvmTest.parsePlayerEntry d = some r →
      r.rewardsClaimedBitmap = (readLE 8 d 108 <<< 64) ||| readLE 8 d 100) := by
  refine ⟨SvmTest.parseGlobalState_encode g hg, SvmTest.parseArena_encode a ha,
    SvmTest.parseArenaAsset_encode aa haa, SvmTest.parsePlayerEntry_encode p hp,
    Sol.parseWhitelistedToken_encode w hw, ?_⟩
  intro d r hbytes hparse
  have hlo : readLE 8 d 100 < 2 ^ 64 := by
    have := readLE_lt 8 d 100 hbytes
    norm_num at this ⊢; omega
  rw [SvmTest.parsePlayerEntry] at hparse
  split at hparse
  · exact absurd hparse (by simp)
  · have hr := Option.some.inj hparse
    rw [← hr]
    simpa using bitmap_add_eq_or (readLE 8 d 100) (readLE 8 d 108) hlo

/-- Witness for C8 at concrete records of all five variants. -/
theorem claim_C8_witness :
    SvmTest.parseGlobalState (SvmTest.encodeGlobalState
      ⟨List.replicate 32 1, List.replicate 32 2, 600, 7, 10, 3, true, 255⟩) =
      some ⟨List.replicate 32 1, List.replicate 32 2, 600, 7, 10, 3, true, 255⟩ ∧
    SvmTest.parseArena (SvmTest.encodeArena
      ⟨42, 3, 5, 5, 1, 0, 255, false, 254, 1700000000, 1700000600, 1000000⟩) =
      some ⟨42, 3, 5, 5, 1, 0, 255, false, 254, 1700000000, 1700000600, 1000000⟩ ∧
    SvmTest.parseArenaAsset (SvmTest.encodeArenaAsset
      ⟨List.replicate 32 3, 2, 4, 99, 101, -5, 7⟩) =
      some ⟨List.replicate 32 3, 2, 4, 99, 101, -5, 7⟩ ∧
    SvmTest.parsePlayerEntry (SvmTest.encodePlayerEntry
      ⟨List.replicate 32 4, List.replicate 32 5, 1, 0, 50, 60, -3, true, false,
        2 ^ 100 + 17, 9⟩) =
      some ⟨List.replicate 32 4, List.replicate 32 5, 1, 0, 50, 60, -3, true, false,
        2 ^ 100 + 17, 9⟩ ∧
    Sol.parseWhitelistedToken (Sol.encodeWhitelistedToken
      ⟨6, 1, true, 8, List.replicate 32 9, [66, 84, 67]⟩) =
      some ⟨6, 1, true, 8, List.replicate 32 9, [66, 84, 67]⟩ := by
  have h := claim_C8
    ⟨List.replicate 32 1, List.replicate 32 2, 600, 7, 10, 3, true, 255⟩
    ⟨42, 3, 5, 5, 1, 0, 255, false, 254, 1700000000, 1700000600, 1000000⟩
    ⟨List.replicate 32 3, 2, 4, 99, 101, -5, 7⟩
    ⟨List.replicate 32 4, List.replicate 32 5, 1, 0, 50, 60, -3, true, false,
      2 ^ 100 + 17, 9⟩
    ⟨6, 1, true, 8, List.replicate 32 9, [66, 84, 67]⟩
    (by unfold SvmTest.ValidGlobalState; norm_num)
    (by unfold SvmTest.ValidArena; norm_num)
    (by unfold SvmTest.ValidArenaAsset; norm_num)
    (by unfold SvmTest.ValidPlayerEntry; norm_num)
    (by unfold Sol.ValidWhitelistedToken; refine ⟨by norm_num, by norm_num,
      by norm_num, by norm_num, by norm_num, by decide, by decide⟩)
  exact ⟨h.1, h.2.1, h.2.2.1, h.2.2.2.1, h.2.2.2.2.1⟩

/-- C9: `identifyAccountType` returns a registered type name exactly when
the buffer has at least 8 bytes and its 8-byte prefix is that type's
discriminator; it returns `none` for every buffer shorter than 8 bytes or
whose prefix matches no registry entry. -/
theorem claim_C9 (d : List Nat) :
    (∀ n, SvmTest.identifyAccountType d = some n ↔
      8 ≤ d.length ∧ (n, d.take 8) ∈ SvmTest.DISCRIMINATORS) ∧
    (d.length < 8 → SvmTest.identifyAccountType d = none) ∧
    ((∀ p ∈ SvmTest.DISCRIMINATORS, d.take 8 ≠ p.2) →
      SvmTest.identifyAccountType d = none) := by
  refine ⟨?_, ?_, ?_⟩
  · intro n
    unfold SvmTest.identifyAccountType SvmTest.DISCRIMINATORS
    simp only [SvmTest.discGlobalState, SvmTest.discArena, SvmTest.discArenaAsset,
      SvmTest.discPlayerEntry]
    by_cases hlen : d.length < 8
    · simp [hlen, not_le.mpr hlen]
    · rw [if_neg hlen]
      have hge : 8 ≤ d.length := Nat.le_of_not_lt hlen
      by_cases h1 : d.take 8 = [163, 46, 74, 168, 216, 123, 133, 98]
      · simp [List.find?, h1, hge, eq_comm]
      · by_cases h2 : d.take 8 = [243, 215, 44, 44, 231, 211, 232, 168]
        · simp [List.find?, h1, h2, hge, eq_comm]
        · by_cases h3 : d.take 8 = [30, 253, 113, 69, 230, 167, 240, 40]
          · simp [List.find?, h1, h2, h3, hge, eq_comm]
          · by_cases h4 : d.take 8 = [158, 6, 39, 104, 234, 4, 153, 255]
            · simp [List.find?, h1, h2, h3, h4, hge, eq_comm]
            · simp [List.find?, h1, h2, h3, h4]
  · intro hlen
    unfold SvmTest.identifyAccountType
    rw [if_pos hlen]
  · intro hnone
    unfold SvmTest.identifyAccountType
    by_cases hlen : d.length < 8
    · rw [if_pos hlen]
    · rw [if_neg hlen]
      have : SvmTest.DISCRIMINATORS.find? (fun p => d.take 8 = p.2) = none := by
        apply List.find?_eq_none.mpr
        intro p hp
        simpa using hnone p hp
      rw [this]
      rfl

/-! ## Transaction poller (`pollNewTransactions` in
`src/listeners/websocket.ts`)

One tick is modelled as a pure function of the RPC responses: `page` is
the result of `fetchSignatures()` (newest first), `fetch` gives each
`getParsedTransaction` outcome, and `proc` says whether
`processTransaction` completes or throws.  `PollState` carries the
in-memory `lastSignature`, the two persisted `SyncState` checkpoint rows
and the set of signatures present in the `transaction` table. -/

structure SigInfo where
  signature : String
  slot : Nat
  err : Bool
  deriving Repr, DecidableEq

/-- Outcome of `fetchTransaction` after its internal retries: `failed`
models a `null` return, `fetched e` a parsed transaction whose
`meta.err` flag is `e`. -/
inductive FetchResult
  | failed
  | fetched (metaErr : Bool)
  deriving Repr, DecidableEq

structure PollState where
  lastSignature : Option String
  dbLastSignature : Option String
  dbLastSlot : Nat
  txTable : List String
  deriving Repr, DecidableEq

/-- The filter loop of `pollNewTransactions`: walk the newest-first page
and stop at the first occurrence of the in-memory checkpoint signature
(or keep the whole page when there is no checkpoint yet). -/
def newSignatures (last : Option String) (page : List SigInfo) : List SigInfo :=
  match last with
  | none => page
  | some l => page.takeWhile (fun s => s.signature ≠ l)

/-- Result of the per-signature batch loop. -/
structure LoopResult where
  threw : Bool
  txTable : List String
  invoked : List String
  maxSlot : Nat
  deriving Repr, DecidableEq

/-- The batch loop of `pollNewTransactions` over `toProcess` (already in
chronological order): skip on-chain-failed signatures, skip signatures
already in the `transaction` table, skip fetch failures and fetched
transactions with `meta.err`; otherwise run `processTransaction` — a
throw aborts the whole tick (caught by the tick-level `catch`). -/
def processLoop (fetch : String → FetchResult) (proc : String → Bool)
    (txTable : List String) (toProcess : List SigInfo) : LoopResult :=
  match toProcess with
  | [] => ⟨false, txTable, [], 0⟩
  | sigInfo :: rest =>
    if sigInfo.err then processLoop fetch proc txTable rest
    else if sigInfo.signature ∈ txTable then processLoop fetch proc txTable rest
    else match fetch sigInfo.signature with
      | .failed => processLoop fetch proc txTable rest
      | .fetched metaErr =>
        if metaErr then processLoop fetch proc txTable rest
        else if proc sigInfo.signature then
          let r := processLoop fetch proc (txTable ++ [sigInfo.signature]) rest
          ⟨r.threw, r.txTable, sigInfo.signature :: r.invoked,
            max sigInfo.slot r.maxSlot⟩
        else ⟨true, txTable, [sigInfo.signature], 0⟩

/-- One tick of `pollNewTransactions`.  Returns the post-tick state and
the chronological list of signatures passed to `processTransaction`.
The checkpoint rows are written only after the loop completes; the
tick-level `catch` leaves them untouched. -/
def pollTick (fetch : String → FetchResult) (proc : String → Bool)
    (st : PollState) (page : List SigInfo) : PollState × List String :=
  if page = [] then (st, []) else
  let ns := newSignatures st.lastSignature page
  if ns = [] then (st, []) else
  let toProcess := ns.reverse
  let r := processLoop fetch proc st.txTable toProcess
  if r.threw then ({ st with txTable := r.txTable }, r.invoked)
  else
    match toProcess.getLast? with
    | none => (st, r.invoked)
    | some lastInfo =>
      ({ lastSignature := some lastInfo.signature
         dbLastSignature := some lastInfo.signature
         dbLastSlot := if r.maxSlot > 0 then r.maxSlot else st.dbLastSlot
         txTable := r.txTable }, r.invoked)

/-- C2: the persisted checkpoint is written only after the whole batch
loop completes; if processing any transaction in the batch throws, the
tick ends with both checkpoint rows equal to their pre-tick values. -/
theorem claim_C2 (fetch : String → FetchResult) (proc : String → Bool)
    (st : PollState) (page : List SigInfo)
    (h : (processLoop fetch proc st.txTable
      (newSignatures st.lastSignature page).reverse).threw = true) :
    (pollTick fetch proc st page).1.dbLastSignature = st.dbLastSignature ∧
    (pollTick fetch proc st page).1.dbLastSlot = st.dbLastSlot := by
  unfold pollTick
  by_cases hp : page = []
  · simp [hp]
  · rw [if_neg hp]
    by_cases hn : newSignatures st.lastSignature page = []
    · simp [hn]
    · simp only [if_neg hn, h, if_pos rfl]
      exact ⟨rfl, rfl⟩

/-- On a batch whose fetches succeed, whose processing never throws and
whose signatures are fresh and pairwise distinct, the loop completes and
invokes `processTransaction` on exactly the non-failed signatures in
order. -/
theorem processLoop_clean (fetch : String → FetchResult) (proc : String → Bool)
    (txTable : List String) (L : List SigInfo)
    (hfetch : ∀ s ∈ L, s.err = false → fetch s.signature = .fetched false)
    (hproc : ∀ s ∈ L, proc s.signature = true)
    (hfresh : ∀ s ∈ L, s.err = false → s.signature ∉ txTable)
    (hnodup : (L.map (fun s => s.signature)).Nodup) :
    (processLoop fetch proc txTable L).threw = false ∧
    (processLoop fetch proc txTable L).invoked =
      (L.filter (fun s => !s.err)).map (fun s => s.signature) := by
  induction L generalizing txTable with
  | nil => exact ⟨rfl, rfl⟩
  | cons s rest ih =>
      have hnodup' : (rest.map (fun s => s.signature)).Nodup :=
        (List.nodup_cons.mp hnodup).2
      have hsig : s.signature ∉ rest.map (fun s => s.signature) :=
        (List.nodup_cons.mp hnodup).1
      rcases herr : s.err with _ | _
      · have hmem : s.signature ∉ txTable := hfresh s (by simp) herr
        have hf := hfetch s (by simp) herr
        have hp := hproc s (by simp)
        have ih' := ih (txTable ++ [s.signature])
          (fun t ht he => hfetch t (by simp [ht]) he)
          (fun t ht => hproc t (by simp [ht]))
          (fun t ht he => by
            intro hcon
            rcases List.mem_append.mp hcon with hin | hin
            · exact hfresh t (by simp [ht]) he hin
            · apply hsig
              have : t.signature = s.signature := by simpa using hin
              exact this ▸ List.mem_map_of_mem _ ht)
          hnodup'
        simp [processLoop, herr, hmem, hf, hp, ih'.1, ih'.2]
      · have ih' := ih txTable
          (fun t ht he => hfetch t (by simp [ht]) he)
          (fun t ht => hproc t (by simp [ht]))
          (fun t ht he => hfresh t (by simp [ht]) he)
          hnodup'
        simp [processLoop, herr, ih'.1, ih'.2]

/-- C3: with a persisted checkpoint `l`, a tick invokes
`processTransaction` on exactly the reversal (chronological order) of the
non-on-chain-failed part of the page's unseen prefix, where the unseen
prefix contains no occurrence of `l` and ends exactly at the first
occurrence of `l` in the page. -/
theorem claim_C3 (fetch : String → FetchResult) (proc : String → Bool)
    (st : PollState) (page : List SigInfo) (l : String)
    (hlast : st.lastSignature = some l)
    (hfetch : ∀ s ∈ newSignatures (some l) page, s.err = false →
      fetch s.signature = .fetched false)
    (hproc : ∀ s ∈ newSignatures (some l) page, proc s.signature = true)
    (hfresh : ∀ s ∈ newSignatures (some l) page, s.err = false →
      s.signature ∉ st.txTable)
    (hnodup : ((newSignatures (some l) page).map (fun s => s.signature)).Nodup) :
    (pollTick fetch proc st page).2 =
      (((newSignatures (some l) page).filter (fun s => !s.err)).map
        (fun s => s.signature)).reverse ∧
    (∀ s ∈ newSignatures (some l) page, s.signature ≠ l) ∧
    page = newSignatures (some l) page ++
      page.dropWhile (fun s => s.signature ≠ l) ∧
    (∀ s0, (page.dropWhile (fun s => s.signature ≠ l)).head? = some s0 →
      s0.signature = l) := by
  have hpre : ∀ s ∈ newSignatures (some l) page, s.signature ≠ l := by
    intro s hs
    have := List.mem_takeWhile_imp (p := fun s => s.signature ≠ l) (l := page)
      (by simpa [newSignatures] using hs)
    simpa using this
  have hsplit : page = newSignatures (some l) page ++
      page.dropWhile (fun s => s.signature ≠ l) := by
    simp [newSignatures, List.takeWhile_append_dropWhile]
  have hhead : ∀ s0, (page.dropWhile (fun s => s.signature ≠ l)).head? = some s0 →
      s0.signature = l := by
    intro s0 h0
    have := List.head?_dropWhile_not (fun s : SigInfo => s.signature ≠ l) page
    rw [h0] at this
    simpa using this
  refine ⟨?_, hpre, hsplit, hhead⟩
  have hclean := processLoop_clean fetch proc st.txTable
    (newSignatures (some l) page).reverse
    (fun s hs he => hfetch s (List.mem_reverse.mp hs) he)
    (fun s hs => hproc s (List.mem_reverse.mp hs))
    (fun s hs he => hfresh s (List.mem_reverse.mp hs) he)
    (by simpa [List.nodup_reverse] using hnodup)
  unfold pollTick
  rw [hlast]
  by_cases hp : page = []
  · subst hp
    simp [newSignatures]
  · rw [if_neg hp]
    by_cases hn : newSignatures (some l) page = []
    · rw [hn]
      simp [hn]
    · simp only [if_neg hn, hclean.1, Bool.false_eq_true, if_false]
      have hres : (processLoop fetch proc st.txTable
          (newSignatures (some l) page).reverse).invoked =
          (((newSignatures (some l) page).filter (fun s => !s.err)).map
            (fun s => s.signature)).reverse := by
        rw [hclean.2, List.filter_reverse, List.map_reverse]
      rcases hlastel : (newSignatures (some l) page).reverse.getLast? with _ | lastInfo
      · simp only [hlastel]
        exact hres
      · simp only [hlastel]
        exact hres

/-- The loop's `maxSlot` is bounded above by any bound on the batch's
slots. -/
theorem processLoop_maxSlot_le (fetch : String → FetchResult)
    (proc : String → Bool) (txTable : List String) (L : List SigInfo) (T : Nat)
    (hT : ∀ s ∈ L, s.slot ≤ T) :
    (processLoop fetch proc txTable L).maxSlot ≤ T := by
  induction L generalizing txTable with
  | nil => simp [processLoop]
  | cons s rest ih =>
      have hT' : ∀ t ∈ rest, t.slot ≤ T := fun t ht => hT t (by simp [ht])
      have hsT : s.slot ≤ T := hT s (by simp)
      simp only [processLoop]
      split
      · exact ih txTable hT'
      · split
        · exact ih txTable hT'
        · split
          · exact ih txTable hT'
          · split
            · exact ih txTable hT'
            · split
              · exact max_le hsT (ih (txTable ++ [s.signature]) hT')
              · exact Nat.zero_le T

/-- When the loop's `maxSlot` is nonzero it is bounded below by any lower
bound on the batch's slots. -/
theorem processLoop_maxSlot_ge (fetch : String → FetchResult)
    (proc : String → Bool) (txTable : List String) (L : List SigInfo) (S : Nat)
    (hS : ∀ s ∈ L, S ≤ s.slot)
    (h0 : (processLoop fetch proc txTable L).maxSlot ≠ 0) :
    S ≤ (processLoop fetch proc txTable L).maxSlot := by
  induction L generalizing txTable with
  | nil => simp [processLoop] at h0
  | cons s rest ih =>
      have hS' : ∀ t ∈ rest, S ≤ t.slot := fun t ht => hS t (by simp [ht])
      have hsS : S ≤ s.slot := hS s (by simp)
      simp only [processLoop] at h0 ⊢
      revert h0
      split
      · exact fun h0 => ih txTable hS' h0
      · split
        · exact fun h0 => ih txTable hS' h0
        · split
          · exact fun h0 => ih txTable hS' h0
          · split
            · exact fun h0 => ih txTable hS' h0
            · split
              · exact fun _ => le_trans hsS (le_max_left _ _)
              · intro h0
                simp at h0

/-- C4: across a successful tick with a persisted checkpoint `l` that
occurs in a newest-first (slot-sorted) page, the persisted slot never
decreases, and the newly persisted checkpoint signature is the page head,
whose slot is at least that of every occurrence of `l`; the re-persisted
slot stays bounded by the new checkpoint's slot and the in-memory
signature stays in sync, so the property composes across ticks. -/
theorem claim_C4 (fetch : String → FetchResult) (proc : String → Bool)
    (st : PollState) (page : List SigInfo) (l : String)
    (hsync : st.lastSignature = st.dbLastSignature)
    (hlast : st.dbLastSignature = some l)
    (hsorted : page.Pairwise (fun a b => b.slot ≤ a.slot))
    (hocc : ∃ s ∈ page, s.signature = l)
    (hinv : ∀ s ∈ page, s.signature = l → st.dbLastSlot ≤ s.slot)
    (hok : (processLoop fetch proc st.txTable
      (newSignatures st.lastSignature page).reverse).threw = false) :
    st.dbLastSlot ≤ (pollTick fetch proc st page).1.dbLastSlot ∧
    (∃ s0, (pollTick fetch proc st page).1.dbLastSignature = some s0.signature ∧
      s0 ∈ page ∧ (∀ s ∈ page, s.signature = l → s.slot ≤ s0.slot) ∧
      (pollTick fetch proc st page).1.dbLastSlot ≤ s0.slot ∧
      (pollTick fetch proc st page).1.lastSignature =
        (pollTick fetch proc st page).1.dbLastSignature) := by
  have hl : st.lastSignature = some l := hsync.trans hlast
  obtain ⟨sl, hslmem, hslsig⟩ := hocc
  match hpage : page with
  | [] => simp at hslmem
  | x :: tail =>
    have hsorted' : ∀ t ∈ tail, t.slot ≤ x.slot := (List.pairwise_cons.mp hsorted).1
    have hocc_le_x : ∀ s ∈ x :: tail, s.signature = l → s.slot ≤ x.slot := by
      intro s hs _
      rcases List.mem_cons.mp hs with h | h
      · exact h ▸ le_refl _
      · exact hsorted' s h
    by_cases hx : x.signature = l
    · -- the checkpoint is the newest page entry: nothing unseen, early return
      have hN : newSignatures st.lastSignature (x :: tail) = [] := by
        simp [newSignatures, hl, List.takeWhile_cons, hx]
      have htick : pollTick fetch proc st (x :: tail) = (st, []) := by
        unfold pollTick
        rw [if_neg (by simp), hN, if_pos rfl]
      rw [htick]
      refine ⟨le_refl _, x, ?_, by simp, hocc_le_x, ?_, hsync⟩
      · simpa [hlast] using congrArg some hx.symm
      · exact hinv x (by simp) hx
    · -- a nonempty unseen prefix: the tick saves the page head as checkpoint
      have hN : newSignatures st.lastSignature (x :: tail) =
          x :: tail.takeWhile (fun s => s.signature ≠ l) := by
        simp [newSignatures, hl, List.takeWhile_cons, hx]
      have hNne : newSignatures st.lastSignature (x :: tail) ≠ [] := by
        rw [hN]; simp
      have hgetLast : (newSignatures st.lastSignature (x :: tail)).reverse.getLast? =
          some x := by
        rw [List.getLast?_reverse, hN]
        rfl
      -- decompose the page into the unseen prefix and the rest
      have hsplitN : (x :: tail).takeWhile (fun s => s.signature ≠ l) ++
          (x :: tail).dropWhile (fun s => s.signature ≠ l) = x :: tail :=
        List.takeWhile_append_dropWhile ..
      have hslnotN : sl ∉ (x :: tail).takeWhile (fun s => s.signature ≠ l) := by
        intro hmem
        have := List.mem_takeWhile_imp hmem
        simp [hslsig] at this
      have hsl_drop : sl ∈ (x :: tail).dropWhile (fun s => s.signature ≠ l) := by
        have : sl ∈ (x :: tail).takeWhile (fun s => s.signature ≠ l) ++
            (x :: tail).dropWhile (fun s => s.signature ≠ l) := by
          rw [hsplitN]; exact hslmem
        rcases List.mem_append.mp this with h | h
        · exact absurd h hslnotN
        · exact h
      have hcross : ∀ a ∈ (x :: tail).takeWhile (fun s => s.signature ≠ l),
          ∀ b ∈ (x :: tail).dropWhile (fun s => s.signature ≠ l), b.slot ≤ a.slot := by
        have := hsplitN ▸ hsorted
        exact (List.pairwise_append.mp this).2.2
      have hN_ge : ∀ s ∈ (newSignatures st.lastSignature (x :: tail)).reverse,
          st.dbLastSlot ≤ s.slot := by
        intro s hs
        have hsN : s ∈ (x :: tail).takeWhile (fun s => s.signature ≠ l) := by
          have := List.mem_reverse.mp hs
          rw [hN] at this
          simpa [newSignatures, hl, List.takeWhile_cons, hx] using this
        exact le_trans (hinv sl hslmem hslsig) (hcross s hsN sl hsl_drop)
      have hN_le : ∀ s ∈ (newSignatures st.lastSignature (x :: tail)).reverse,
          s.slot ≤ x.slot := by
        intro s hs
        have hsN := List.mem_reverse.mp hs
        rw [hN] at hsN
        rcases List.mem_cons.mp hsN with h | h
        · exact h ▸ le_refl _
        · exact hsorted' s (List.takeWhile_subset _ h)
      have htick : (pollTick fetch proc st (x :: tail)).1 =
          { lastSignature := some x.signature
            dbLastSignature := some x.signature
            dbLastSlot := if (processLoop fetch proc st.txTable
                (newSignatures st.lastSignature (x :: tail)).reverse).maxSlot > 0 then
                (processLoop fetch proc st.txTable
                  (newSignatures st.lastSignature (x :: tail)).reverse).maxSlot
              else st.dbLastSlot
            txTable := (processLoop fetch proc st.txTable
              (newSignatures st.lastSignature (x :: tail)).reverse).txTable } := by
        unfold pollTick
        rw [if_neg (by simp), if_neg hNne]
        simp only [hok, Bool.false_eq_true, if_false, hgetLast]
      rw [htick]
      refine ⟨?_, x, rfl, by simp, hocc_le_x, ?_, rfl⟩
      · by_cases hms : (processLoop fetch proc st.txTable
            (newSignatures st.lastSignature (x :: tail)).reverse).maxSlot > 0
        · simp only [if_pos hms]
          exact processLoop_maxSlot_ge fetch proc st.txTable _ st.dbLastSlot hN_ge
            (by omega)
        · simp only [if_neg hms]
          exact le_refl _
      · by_cases hms : (processLoop fetch proc st.txTable
            (newSignatures st.lastSignature (x :: tail)).reverse).maxSlot > 0
        · simp only [if_pos hms]
          exact processLoop_maxSlot_le fetch proc st.txTable _ x.slot hN_le
        · simp only [if_neg hms]
          exact le_trans (hinv sl hslmem hslsig) (hocc_le_x sl hslmem hslsig)

/-- Witness for C4: a tick from checkpoint `a` (slot 1) over the sorted
page `[c@9, b@5, a@1]` advances the checkpoint to `c` and the slot to 9.
-/
theorem claim_C4_witness :
    (1 : Nat) ≤ (pollTick (fun _ => .fetched false) (fun _ => true)
      ⟨some "a", some "a", 1, []⟩
      [⟨"c", 9, false⟩, ⟨"b", 5, false⟩, ⟨"a", 1, false⟩]).1.dbLastSlot ∧
    (∃ s0, (pollTick (fun _ => .fetched false) (fun _ => true)
      ⟨some "a", some "a", 1, []⟩
      [⟨"c", 9, false⟩, ⟨"b", 5, false⟩, ⟨"a", 1, false⟩]).1.dbLastSignature =
        some s0.signature ∧
      s0 ∈ [⟨"c", 9, false⟩, ⟨"b", 5, false⟩, (⟨"a", 1, false⟩ : SigInfo)] ∧
      (∀ s ∈ [⟨"c", 9, false⟩, ⟨"b", 5, false⟩, (⟨"a", 1, false⟩ : SigInfo)],
        s.signature = "a" → s.slot ≤ s0.slot) ∧
      (pollTick (fun _ => .fetched false) (fun _ => true)
        ⟨some "a", some "a", 1, []⟩
        [⟨"c", 9, false⟩, ⟨"b", 5, false⟩, ⟨"a", 1, false⟩]).1.dbLastSlot ≤ s0.slot ∧
      (pollTick (fun _ => .fetched false) (fun _ => true)
        ⟨some "a", some "a", 1, []⟩
        [⟨"c", 9, false⟩, ⟨"b", 5, false⟩, ⟨"a", 1, false⟩]).1.lastSignature =
      (pollTick (fun _ => .fetched false) (fun _ => true)
        ⟨some "a", some "a", 1, []⟩
        [⟨"c", 9, false⟩, ⟨"b", 5, false⟩, ⟨"a", 1, false⟩]).1.dbLastSignature) :=
  claim_C4 (fun _ => .fetched false) (fun _ => true)
    ⟨some "a", some "a", 1, []⟩
    [⟨"c", 9, false⟩, ⟨"b", 5, false⟩, ⟨"a", 1, false⟩] "a"
    rfl rfl (by decide) ⟨⟨"a", 1, false⟩, by decide, rfl⟩ (by decide) (by decide)

/-- Witness for C3: page `[c, b, a]` with checkpoint `a`, where `b`
failed on-chain, invokes processing on exactly `[b?]` — here only `c`
after skipping `b` — in chronological order. -/
theorem claim_C3_witness :
    (pollTick (fun _ => .fetched false) (fun _ => true)
        ⟨some "a", some "a", 1, []⟩
        [⟨"c", 9, false⟩, ⟨"b", 5, true⟩, ⟨"a", 1, false⟩]).2 = ["c"] ∧
    (∀ s ∈ newSignatures (some "a")
        [⟨"c", 9, false⟩, ⟨"b", 5, true⟩, ⟨"a", 1, false⟩], s.signature ≠ "a") := by
  have h := claim_C3 (fun _ => .fetched false) (fun _ => true)
    ⟨some "a", some "a", 1, []⟩
    [⟨"c", 9, false⟩, ⟨"b", 5, true⟩, ⟨"a", 1, false⟩] "a"
    rfl (by decide) (by decide) (by decide) (by decide)
  refine ⟨?_, h.2.1⟩
  rw [h.1]
  decide

/-- Witness for C2: a one-element page whose processing throws leaves the
checkpoint rows unchanged. -/
theorem claim_C2_witness :
    (pollTick (fun _ => .fetched false) (fun _ => false)
        ⟨some "a", some "a", 5, []⟩ [⟨"b", 9, false⟩, ⟨"a", 5, false⟩]).1.dbLastSignature =
      some "a" ∧
    (pollTick (fun _ => .fetched false) (fun _ => false)
        ⟨some "a", some "a", 5, []⟩ [⟨"b", 9, false⟩, ⟨"a", 5, false⟩]).1.dbLastSlot = 5 := by
  have h := claim_C2 (fun _ => .fetched false) (fun _ => false)
    ⟨some "a", some "a", 5, []⟩ [⟨"b", 9, false⟩, ⟨"a", 5, false⟩] (by decide)
  exact h

/-- Witness for C9: a GlobalState-tagged buffer is identified, a short
buffer and an unknown tag are rejected. -/
theorem claim_C9_witness :
    SvmTest.identifyAccountType
      ([163, 46, 74, 168, 216, 123, 133, 98] ++ List.replicate 84 0) =
      some "GlobalState" ∧
    SvmTest.identifyAccountType [163, 46, 74] = none := by
  constructor
  · exact ((claim_C9 _).1 "GlobalState").mpr ⟨by decide, by decide⟩
  · exact (claim_C9 _).2.1 (by decide)

/-! ## Claims C1, C5, C6, C7, C10: orchestrator and leader election -/

/-- C1 counterexample: with the persisted row's `endStatus` already
`processing` (an in-flight end transition), a duplicate trigger's
`EndWorker.addJob` still executes the end transition inline — reaching
the on-chain submission phase — and enqueues a job, contradicting the
claim that `addJob` never enqueues or executes a second transition while
the phase is in flight. -/
theorem claim_C1_counterexample :
    (endAddJob (some ⟨.completed, .processing, none, 0⟩) (some ⟨90, 2⟩) 100
      (Except.ok ()) (some ⟨90, 2⟩) 100 1000).executedInline = true ∧
    (endAddJob (some ⟨.completed, .processing, none, 0⟩) (some ⟨90, 2⟩) 100
      (Except.ok ()) (some ⟨90, 2⟩) 100 1000).reachedSubmission = true ∧
    (endAddJob (some ⟨.completed, .processing, none, 0⟩) (some ⟨90, 2⟩) 100
      (Except.ok ()) (some ⟨90, 2⟩) 100 1000).job.isSome = true :=
  ⟨rfl, rfl, rfl⟩

/-- C1 (amended): `StartWorker.addJob` neither enqueues nor modifies the
row whenever the row's `startStatus` is anything but `pending` (in
particular while it is `processing`); `EndWorker.addJob` de-duplicates
only on `endStatus = completed` — it skips then, but a duplicate end
trigger while `endStatus = processing` executes the transition again. -/
theorem claim_C1 :
    (∀ (r : ProcRow) (nowMs : Int), r.startStatus ≠ .pending →
      (startAddJob (some r) nowMs).enqueued = false ∧
      (startAddJob (some r) nowMs).row = some r) ∧
    (∀ (r : ProcRow) chainInline nowInlineSec rest chainRetry nowRetrySec nowMs,
      r.endStatus = .completed →
      (endAddJob (some r) chainInline nowInlineSec rest chainRetry
        nowRetrySec nowMs).skipped = true ∧
      (endAddJob (some r) chainInline nowInlineSec rest chainRetry
        nowRetrySec nowMs).executedInline = false ∧
      (endAddJob (some r) chainInline nowInlineSec rest chainRetry
        nowRetrySec nowMs).job = none) ∧
    (∀ (r : ProcRow) chainInline nowInlineSec rest chainRetry nowRetrySec nowMs,
      r.endStatus = .processing →
      (endAddJob (some r) chainInline nowInlineSec rest chainRetry
        nowRetrySec nowMs).executedInline = true) := by
  refine ⟨?_, ?_, ?_⟩
  · intro r nowMs h
    simp [startAddJob, h]
  · intro r chainInline nowInlineSec rest chainRetry nowRetrySec nowMs h
    simp [endAddJob, h]
  · intro r chainInline nowInlineSec rest chainRetry nowRetrySec nowMs h
    simp only [endAddJob, h]
    rw [if_neg (by decide)]
    rcases hpe : processEndArena chainInline nowInlineSec rest with ⟨res, reached⟩
    rcases res with e | u
    · by_cases hd : isDurationNotComplete e
      · rcases chainRetry with _ | info <;> simp [hd]
      · simp [hd]
    · simp

/-- Witness for C1 at concrete rows. -/
theorem claim_C1_witness :
    ((startAddJob (some ⟨.processing, .pending, none, 0⟩) 5).enqueued = false ∧
      (startAddJob (some ⟨.processing, .pending, none, 0⟩) 5).row =
        some ⟨.processing, .pending, none, 0⟩) ∧
    (endAddJob (some ⟨.completed, .completed, none, 0⟩) none 0 (Except.ok ())
      none 0 7).skipped = true ∧
    (endAddJob (some ⟨.completed, .processing, none, 0⟩) none 0 (Except.ok ())
      none 0 7).executedInline = true := by
  refine ⟨claim_C1.1 ⟨.processing, .pending, none, 0⟩ 5 (by decide), ?_, ?_⟩
  · exact (claim_C1.2.1 ⟨.completed, .completed, none, 0⟩ none 0 (Except.ok ())
      none 0 7 rfl).1
  · exact claim_C1.2.2 ⟨.completed, .processing, none, 0⟩ none 0 (Except.ok ())
      none 0 7 rfl

/-- C5 (code bug exhibit): a start-phase `ProcessingState` row stuck in
`processing` for 3 minutes (past the 2-minute threshold), on a Waiting
arena whose first player joined 11'40" ago (countdown 10 minutes), is
demoted to `failed` by `checkWaitingArenasCountdown` — but the subsequent
`StartWorker.addJob` call returns null because the demoted row's
`startStatus` is `failed`, not `pending`, so no start job is ever
enqueued: the re-drive promised by the spec (and by the code's own
"Retrying failed arena start" path) never happens.  The analogous stuck
end-phase row is demoted and successfully re-driven, because
`EndWorker.addJob` only skips on `completed`. -/
theorem claim_C5 :
    (startReconcileArena [9300000] (some ⟨.processing, .pending, none, 9820000⟩)
      10000000 600000).row = some ⟨.failed, .pending, none, 10000000⟩ ∧
    (startReconcileArena [9300000] (some ⟨.processing, .pending, none, 9820000⟩)
      10000000 600000).addJobCalled = true ∧
    (startReconcileArena [9300000] (some ⟨.processing, .pending, none, 9820000⟩)
      10000000 600000).enqueued = false ∧
    (endReconcileArena (some ⟨.completed, .processing, none, 9820000⟩)
      (some ⟨9000, 3⟩) 10000 (Except.ok ()) (some ⟨9000, 3⟩) 10000
      10000000).executedInline = true ∧
    (endReconcileArena (some ⟨.completed, .processing, none, 9820000⟩)
      (some ⟨9000, 3⟩) 10000 (Except.ok ()) (some ⟨9000, 3⟩) 10000
      10000000).enqueued = true :=
  ⟨rfl, rfl, rfl, rfl, rfl⟩

/-- C6 counterexample: with the chain's recorded end timestamp 1 second
in the future (still in the future), the inline attempt does NOT abort —
the duration gate only fires for more than 1 second of remaining time —
and the transition proceeds to the submission phase and completes, with
no rescheduling. -/
theorem claim_C6_counterexample :
    (endAddJob none (some ⟨101, 3⟩) 100 (Except.ok ()) (some ⟨101, 3⟩) 100
      5000).reachedSubmission = true ∧
    (endAddJob none (some ⟨101, 3⟩) 100 (Except.ok ()) (some ⟨101, 3⟩) 100
      5000).finalRow = some ⟨.completed, .completed, none, 5000⟩ :=
  ⟨rfl, rfl⟩

/-- C6 (amended): when the chain's recorded end timestamp is more than 1
second in the future, the inline attempt aborts with the
duration-not-complete error before reaching any submission, and the
orchestrator re-reads the chain, enqueues the end job delayed by
(remaining seconds + 5) seconds and sets `endStatus` to `scheduled`. -/
theorem claim_C6 (r? : Option ProcRow) (info info2 : ArenaInfo)
    (nowInlineSec nowRetrySec nowMs : Int) (rest : Except EndErr Unit)
    (hnotdone : ∀ r, r? = some r → r.endStatus ≠ .completed)
    (hfuture : info.endTimestamp - nowInlineSec > 1) :
    (endAddJob r? (some info) nowInlineSec rest (some info2) nowRetrySec
      nowMs).reachedSubmission = false ∧
    (processEndArena (some info) nowInlineSec rest).1 =
      Except.error (.durationNotComplete (info.endTimestamp - nowInlineSec)) ∧
    (endAddJob r? (some info) nowInlineSec rest (some info2) nowRetrySec
      nowMs).job =
      some ⟨some ((max 0 (info2.endTimestamp - nowRetrySec) + 5) * 1000), false⟩ ∧
    (∀ fr, (endAddJob r? (some info) nowInlineSec rest (some info2) nowRetrySec
      nowMs).finalRow = some fr → fr.endStatus = .scheduled) := by
  have hpe : processEndArena (some info) nowInlineSec rest =
      (Except.error (.durationNotComplete (info.endTimestamp - nowInlineSec)),
        false) := by
    simp [processEndArena, hfuture]
  rcases r? with _ | r
  · refine ⟨?_, by rw [hpe], ?_, ?_⟩ <;>
      simp [endAddJob, hpe, isDurationNotComplete]
  · have hne : r.endStatus ≠ .completed := hnotdone r rfl
    refine ⟨?_, by rw [hpe], ?_, ?_⟩ <;>
      simp [endAddJob, hpe, isDurationNotComplete, hne]

/-- Witness for C6: the spec's scenario — end timestamp 5 seconds in the
future — reschedules for (5 + 5) seconds and marks the row scheduled. -/
theorem claim_C6_witness :
    (endAddJob none (some ⟨105, 3⟩) 100 (Except.ok ()) (some ⟨105, 3⟩) 100
      200).reachedSubmission = false ∧
    (endAddJob none (some ⟨105, 3⟩) 100 (Except.ok ()) (some ⟨105, 3⟩) 100
      200).job = some ⟨some 10000, false⟩ ∧
    (∀ fr, (endAddJob none (some ⟨105, 3⟩) 100 (Except.ok ()) (some ⟨105, 3⟩)
      100 200).finalRow = some fr → fr.endStatus = .scheduled) := by
  have h := claim_C6 none ⟨105, 3⟩ ⟨105, 3⟩ 100 100 200 (Except.ok ())
    (fun r hr => by cases hr) (by decide)
  exact ⟨h.1, by rw [h.2.2.1]; rfl, h.2.2.2⟩

/-- C7: the heartbeat extends the lock TTL only when the key still holds
this instance's identity; on any mismatch it leaves the store untouched
(never renews another holder's lock) and demotes this instance to
follower — only the leader flag and the heartbeat timer change, the
process keeps running. -/
theorem claim_C7 (id : String) (store : LockStore)
    (localState : LeaderLocal) :
    (store.value ≠ some id →
      (heartbeatStep id false store localState).1 = store ∧
      (heartbeatStep id false store localState).2.isLeader = false ∧
      (heartbeatStep id false store localState).2.heartbeatRunning = false) ∧
    (store.value = some id →
      (heartbeatStep id false store localState).1 = { store with ttl := 30 } ∧
      (heartbeatStep id false store localState).2 = localState) := by
  constructor
  · intro hne
    rcases hv : store.value with _ | v
    · simp [heartbeatStep, hv]
    · have : v ≠ id := fun h => hne (h ▸ hv)
      simp [heartbeatStep, hv, this]
  · intro heq
    simp [heartbeatStep, heq]

/-- Witness for C7: another holder's lock is not extended and demotes us;
our own lock is extended. -/
theorem claim_C7_witness :
    ((heartbeatStep "me" false ⟨some "other", 12⟩ ⟨true, true⟩).1 =
        ⟨some "other", 12⟩ ∧
      (heartbeatStep "me" false ⟨some "other", 12⟩ ⟨true, true⟩).2.isLeader =
        false ∧
      (heartbeatStep "me" false ⟨some "other", 12⟩
        ⟨true, true⟩).2.heartbeatRunning = false) ∧
    (heartbeatStep "me" false ⟨some "me", 12⟩ ⟨true, true⟩).1 =
      ⟨some "me", 30⟩ :=
  ⟨(claim_C7 "me" ⟨some "other", 12⟩ ⟨true, true⟩).1 (by decide),
    ((claim_C7 "me" ⟨some "me", 12⟩ ⟨true, true⟩).2 rfl).1⟩

/-- C10: when no `ProcessingState` row exists, `EndWorker.addJob` does
not skip and its upsert creates the row with `startStatus = completed`
and `endStatus = processing` — marking the start phase completed even
though no start transition was ever recorded. -/
theorem claim_C10 (chainInline : Option ArenaInfo) (nowInlineSec : Int)
    (rest : Except EndErr Unit) (chainRetry : Option ArenaInfo)
    (nowRetrySec nowMs : Int) :
    (endAddJob none chainInline nowInlineSec rest chainRetry nowRetrySec
      nowMs).skipped = false ∧
    (endAddJob none chainInline nowInlineSec rest chainRetry nowRetrySec
      nowMs).upsertedRow = some ⟨.completed, .processing, none, nowMs⟩ := by
  simp only [endAddJob]
  rcases hpe : processEndArena chainInline nowInlineSec rest with ⟨res, reached⟩
  rcases res with e | u
  · by_cases hd : isDurationNotComplete e
    · rcases chainRetry with _ | info <;> simp [hd, freshRow]
    · simp [hd, freshRow]
  · simp [freshRow]

end Indexer
